import Mathlib

/-!
Verification of the streaming windowed-sum engine of the nick-miniapp
repository (src/dpcpp/plumbing/plumbing.cc, src/dpcpp/plumbing/kernel.cc)
and the module-layout rearrangement of src/h5read/h5read.c.

The engine's compile-time constants (plumbing.cc lines 21-31):
  KERNEL_WIDTH = 3, KERNEL_HEIGHT = 3, FULL_KERNEL_HEIGHT = 7,
  BLOCK_SIZE = 16 (the width of PipedPixelsArray).
All pixel arithmetic is performed on `uint16_t` values, i.e. modulo 2^16.
-/

/-- The modulus of `uint16_t` arithmetic: 2^16. -/
def U16 : Nat := 65536

/-- `uint16_t` addition: `sum[i] = l[i] + r[i]` stored into a `uint16_t`
(plumbing.cc lines 35-42): the result is reduced modulo 2^16. -/
def u16add (a b : Nat) : Nat := (a + b) % U16

/-- `uint16_t` subtraction: `sum[i] = l[i] - r[i]` stored into a `uint16_t`
(plumbing.cc lines 43-50): the result is `a - b` modulo 2^16, expressed on
naturals as `(a + 2^16 - b % 2^16) % 2^16`. -/
def u16sub (a b : Nat) : Nat := (a + U16 - b % U16) % U16

theorem u16add_mod (a b : Nat) : u16add (a % U16) (b % U16) = (a + b) % U16 := by
  unfold u16add U16
  omega

theorem u16add_zero (a : Nat) : u16add (a % U16) 0 = a % U16 := by
  unfold u16add U16
  omega

theorem u16sub_eq (B X : Nat) : u16sub ((B + X) % U16) (B % U16) = X % U16 := by
  unfold u16sub U16
  omega

theorem u16_lt (a b : Nat) : u16add a b < U16 ∧ u16sub a b < U16 := by
  unfold u16add u16sub U16
  omega

/-!
## Window-sum quantities

`colSum img t x` is the horizontal kernel sum at row `t`, centre column `x`:
the sum of the `2*KERNEL_WIDTH+1 = 7` horizontal neighbours, where columns
left of the image (negative indices) contribute 0 — exactly what
`sum_buffered_block_0` computes for block 0, whose left overlap is
zero-initialised at the start of each row (plumbing.cc lines 116-127, 261).
-/

/-- Horizontal 7-tap sum centred at column `x` of row `t`; columns left of
the image contribute zero. -/
def colSum (img : Nat → Nat → Nat) (t x : Nat) : Nat :=
  ∑ d ∈ Finset.range 7, if x + d < 3 then 0 else img t (x + d - 3)

/-- Cumulative vertical sum of horizontal kernel sums over rows `0..y`,
the quantity held in the engine's row store ring buffer. -/
def cum (img : Nat → Nat → Nat) (y x : Nat) : Nat :=
  ∑ t ∈ Finset.range (y + 1), colSum img t x

/-- The 7x7 window sum centred at `(r, x)`, low-edge clamped, expressed
through `colSum`. -/
def windowSumLC (img : Nat → Nat → Nat) (r x : Nat) : Nat :=
  ∑ t ∈ Finset.Icc (r - 3) (r + 3), colSum img t x

/-- The `(2*KERNEL_WIDTH+1) x (2*KERNEL_HEIGHT+1) = 7x7` window sum of the
image centred at `(r, x)`: the sum of `img` over the window rows
`r-3 .. r+3` and columns `x-3 .. x+3` intersected with the image (the
truncated subtraction clamps the low edges; for `r ≥ 3` and `x ≥ 3` this is
the plain unclamped window sum). -/
def windowSum (img : Nat → Nat → Nat) (r x : Nat) : Nat :=
  ∑ t ∈ Finset.Icc (r - 3) (r + 3), ∑ u ∈ Finset.Icc (x - 3) (x + 3), img t u

theorem colSum_eq_Icc (img : Nat → Nat → Nat) (t x : Nat) :
    colSum img t x = ∑ u ∈ Finset.Icc (x - 3) (x + 3), img t u := by
  unfold colSum
  rcases Nat.lt_or_ge x 3 with hx | hx
  · interval_cases x <;>
      · rw [← Nat.Ico_succ_right, ← Finset.range_eq_Ico]
        simp [Finset.sum_range_succ]
  · rw [← Nat.Ico_succ_right, Finset.sum_Ico_eq_sum_range]
    have h7 : x + 3 + 1 - (x - 3) = 7 := by omega
    rw [h7]
    refine Finset.sum_congr rfl fun d hd => ?_
    have hd7 : d < 7 := Finset.mem_range.mp hd
    have : ¬ (x + d < 3) := by omega
    rw [if_neg this]
    congr 1
    omega

theorem windowSumLC_eq (img : Nat → Nat → Nat) (r x : Nat) :
    windowSumLC img r x = windowSum img r x := by
  unfold windowSumLC windowSum
  exact Finset.sum_congr rfl fun t _ => colSum_eq_Icc img t x

theorem cum_succ (img : Nat → Nat → Nat) (y x : Nat) (hy : 1 ≤ y) :
    cum img y x = cum img (y - 1) x + colSum img y x := by
  unfold cum
  obtain ⟨y', rfl⟩ : ∃ y', y = y' + 1 := ⟨y - 1, by omega⟩
  rw [Finset.sum_range_succ]
  simp

theorem cum_zero (img : Nat → Nat → Nat) (x : Nat) :
    cum img 0 x = colSum img 0 x := by
  unfold cum
  simp

/-- The cumulative sums separate into the value recorded `FULL_KERNEL_HEIGHT
= 7` rows earlier plus the window of the last 7 rows (clamped at row 0). -/
theorem cum_window (img : Nat → Nat → Nat) (y x : Nat) :
    cum img y x
      = (if 7 ≤ y then cum img (y - 7) x else 0)
        + ∑ t ∈ Finset.Icc (y - 6) y, colSum img t x := by
  rcases Nat.lt_or_ge y 7 with hy | hy
  · rw [if_neg (by omega)]
    unfold cum
    rw [Nat.zero_add]
    have h1 : y - 6 = 0 := by omega
    rw [h1, ← Nat.Ico_succ_right, ← Finset.range_eq_Ico]
  · rw [if_pos hy]
    unfold cum
    have h1 : y - 7 + 1 = y - 6 := by omega
    rw [h1, ← Nat.Ico_succ_right, Finset.range_eq_Ico]
    exact (Finset.sum_Ico_consecutive (fun t => colSum img t x)
      (Nat.zero_le (y - 6)) (by omega : y - 6 ≤ y + 1)).symm

/-!
## The streaming engine

Shallow embedding of the consumer kernel `Module<0>` of plumbing.cc (lines
240-309) and `run_module` of kernel.cc (lines 107-196).  The engine state
is the row accumulation store `rows` (slot, block, pixel), the destination
array `dest` (row, column; `none` = never written, since the destination is
allocated uninitialised), and the number of pipe reads performed `pos`.
The interim pixel buffer (`BufferedPipedPixelsArray`, width
`2*BLOCK_SIZE + KERNEL_WIDTH = 35`) is threaded through the per-row block
loop.  The engines read the `pos`-th block of an abstract pipe
`stream : Nat → Nat → Nat` (read index, pixel index).
-/

structure EngState where
  rows : Nat → Nat → Nat → Nat
  dest : Nat → Nat → Option Nat
  pos : Nat

/-- `interim_blocks[1] = ProducerPipeToModule::read()`: the next pipe block
lands in buffer positions `[19, 35)` (block 1 starts at offset
`KERNEL_WIDTH + BLOCK_SIZE = 19`). -/
def bufRead (stream : Nat → Nat → Nat) (pos : Nat) (buf : Nat → Nat) : Nat → Nat :=
  fun j => if 19 ≤ j ∧ j < 35 then stream pos (j - 19) else buf j

/-- The left shift by `BLOCK_SIZE`: `interim_pixels[i] = interim_pixels[16 + i]`
for `i < KERNEL_WIDTH + BLOCK_SIZE = 19`; positions `[19, 35)` are left stale. -/
def bufShift (buf : Nat → Nat) : Nat → Nat :=
  fun j => if j < 19 then buf (16 + j) else buf j

/-- `sum_buffered_block_0`: for each centre `c` of block 0, accumulate
`buffer[KERNEL_WIDTH + c + i]` for `i = -KERNEL_WIDTH .. KERNEL_WIDTH`
(offsets `c .. c+6`) into a `uint16_t`. -/
def hsum (buf : Nat → Nat) (c : Nat) : Nat :=
  (List.range 7).foldl (fun s t => u16add s (buf (c + t))) 0

/-- `new_row = sum + prev_row` (elementwise `uint16_t` addition). -/
def newRowF (buf : Nat → Nat) (prevRow : Nat → Nat) : Nat → Nat :=
  fun i => u16add (hsum buf i) (prevRow i)

/-- `rows[swap_row_store][block] = new_row`. -/
def rowsUpdate (rows : Nat → Nat → Nat → Nat) (sw b : Nat) (v : Nat → Nat) :
    Nat → Nat → Nat → Nat :=
  fun r bb i => if r = sw ∧ bb = b then v i else rows r bb i

/-- If `y >= KERNEL_HEIGHT`, write `kernel_sum` to destination row
`y - KERNEL_HEIGHT`, columns `[b*BLOCK_SIZE, b*BLOCK_SIZE + BLOCK_SIZE)`. -/
def destUpdate (dest : Nat → Nat → Option Nat) (y b : Nat) (ksum : Nat → Nat) :
    Nat → Nat → Option Nat :=
  if 3 ≤ y then
    fun r x =>
      if r = y - 3 ∧ b * 16 ≤ x ∧ x < b * 16 + 16 then some (ksum (x - b * 16))
      else dest r x
  else dest

/-- One iteration of the inner block loop at row `y`, block index `b`:
read block `b+1` into the right of the buffer, horizontal kernel sums for
block `b`, shift the buffer left, read `prev_row = rows[prevIdx y][b]` and
`oldest_row = rows[y % 7][b]`, store `new_row = sum + prev_row` over the
oldest entry, and emit `kernel_sum = new_row - oldest_row` when
`y >= KERNEL_HEIGHT`. -/
def blockStep (stream : Nat → Nat → Nat) (prevIdx : Nat → Nat) (y b : Nat)
    (p : EngState × (Nat → Nat)) : EngState × (Nat → Nat) :=
  ⟨⟨rowsUpdate p.1.rows (y % 7) b
      (newRowF (bufRead stream p.1.pos p.2) (p.1.rows (prevIdx y) b)),
    destUpdate p.1.dest y b
      (fun i =>
        u16sub (newRowF (bufRead stream p.1.pos p.2) (p.1.rows (prevIdx y) b) i)
          (p.1.rows (y % 7) b i)),
    p.1.pos + 1⟩,
   bufShift (bufRead stream p.1.pos p.2)⟩

/-- Start of a row: the interim pixel buffer is zero-initialised and the
first block is read into positions `[3, 19)` (`interim_blocks[0]`). -/
def rowInit (stream : Nat → Nat → Nat) (st : EngState) : EngState × (Nat → Nat) :=
  (⟨st.rows, st.dest, st.pos + 1⟩,
   fun j => if 3 ≤ j ∧ j < 19 then stream st.pos (j - 3) else 0)

/-- `k` iterations of the inner block loop (the source runs it for
`block = 0 .. FULL_BLOCKS - 2`). -/
def innerIter (stream : Nat → Nat → Nat) (prevIdx : Nat → Nat) (y : Nat)
    (init : EngState × (Nat → Nat)) : Nat → EngState × (Nat → Nat)
  | 0 => init
  | k + 1 => blockStep stream prevIdx y k (innerIter stream prevIdx y init k)

/-- One full row `y` of the engine. -/
def rowStep (stream : Nat → Nat → Nat) (prevIdx : Nat → Nat) (fullBlocks y : Nat)
    (st : EngState) : EngState :=
  (innerIter stream prevIdx y (rowInit stream st) (fullBlocks - 1)).1

/-- The engine state after processing rows `0 .. n-1`, starting from the
zero-initialised row store and an untouched destination array. -/
def engineRows (stream : Nat → Nat → Nat) (prevIdx : Nat → Nat) (fullBlocks : Nat) :
    Nat → EngState
  | 0 => ⟨fun _ _ _ => 0, fun _ _ => none, 0⟩
  | y + 1 => rowStep stream prevIdx fullBlocks y (engineRows stream prevIdx fullBlocks y)

/-- The previous-row-index form of plumbing.cc line 288:
`int prev_row_store = (y - 1) % FULL_KERNEL_HEIGHT;` where `y` has type
`size_t`, so for `y = 0` the subtraction wraps to `2^64 - 1`. -/
def prev_plumbing (y : Nat) : Nat := ((y + (2 ^ 64 - 1)) % 2 ^ 64) % 7

/-- The previous-row-index form of kernel.cc lines 159-160:
`int prev_row_index = (y + FULL_KERNEL_HEIGHT - 1) % FULL_KERNEL_HEIGHT;`. -/
def prev_kernel (y : Nat) : Nat := (y + 7 - 1) % 7

/-- `FULL_BLOCKS = (fast - BLOCK_REMAINDER) / BLOCK_SIZE = fast / 16`
(plumbing.cc lines 185-187; the source computes it from the compile-time
image width `E2XE_16M_FAST`, represented here by the image width `fast`). -/
def FULL_BLOCKS (fast : Nat) : Nat := fast / 16

/-- The producer kernel (plumbing.cc lines 222-237 and kernel.cc lines
83-102) as the stream of pipe reads seen by the consumer: the `k`-th block
written to the pipe is the 16 pixels at `image_data + (k / FULL_BLOCKS) *
fast + (k % FULL_BLOCKS) * 16`. -/
def producerStream (img : Nat → Nat → Nat) (fast : Nat) : Nat → Nat → Nat :=
  fun k i =>
    if i < 16 then img (k / FULL_BLOCKS fast) ((k % FULL_BLOCKS fast) * 16 + i) else 0

/-- The full consumer kernel `Module<0>` of plumbing.cc run against the
producer on image `img` with dimensions `slow x fast`. -/
def engineP (img : Nat → Nat → Nat) (slow fast : Nat) : EngState :=
  engineRows (producerStream img fast) prev_plumbing (FULL_BLOCKS fast) slow

/-- `run_module` of kernel.cc: it receives the uploaded mask pointer
`mask_data` but its body never reads it; the window-sum recurrence uses the
`(y + FULL_KERNEL_HEIGHT - 1) % FULL_KERNEL_HEIGHT` previous-row form. -/
def run_module (mask : Nat → Nat) (stream : Nat → Nat → Nat) (fullBlocks slow : Nat) :
    EngState :=
  engineRows stream prev_kernel fullBlocks slow

/-!
## Characterisation of the engine
-/

theorem hsum_spec (f : Nat → Nat) (c : Nat) :
    hsum f c
      = (f c + f (c + 1) + f (c + 2) + f (c + 3) + f (c + 4) + f (c + 5) + f (c + 6))
          % U16 := by
  show (List.range 7).foldl _ 0 = _
  rw [show List.range 7 = [0, 1, 2, 3, 4, 5, 6] from rfl]
  simp only [List.foldl, Nat.add_zero]
  unfold u16add U16
  omega

/-- The horizontal kernel sums computed by `sum_buffered_block_0` on a
buffer holding (the zero left overlap and) blocks `b` and `b+1` of row `y`
are the clamped 7-tap column sums, reduced modulo 2^16. -/
theorem hsum_colSum (img : Nat → Nat → Nat) (y b c : Nat) (f : Nat → Nat)
    (hf : ∀ j, j < 35 → f j = if j < 3 ∧ b = 0 then 0 else img y (b * 16 + j - 3))
    (hc : c < 16) :
    hsum f c = colSum img y (b * 16 + c) % U16 := by
  have ht : ∀ u w : Nat, b * 16 + u = w →
      (if u < 3 ∧ b = 0 then 0 else img y (b * 16 + u - 3))
        = if w < 3 then 0 else img y (w - 3) := by
    intro u w hw
    subst hw
    by_cases hb : b = 0
    · subst hb
      simp only [Nat.zero_mul, Nat.zero_add]
      by_cases h3 : u < 3
      · rw [if_pos ⟨h3, trivial⟩, if_pos h3]
      · rw [if_neg fun hh => h3 hh.1, if_neg h3]
    · rw [if_neg fun hh => hb hh.2, if_neg (by omega)]
  rw [hsum_spec]
  congr 1
  rw [hf c (by omega), hf (c + 1) (by omega), hf (c + 2) (by omega),
    hf (c + 3) (by omega), hf (c + 4) (by omega), hf (c + 5) (by omega),
    hf (c + 6) (by omega)]
  unfold colSum
  simp only [Finset.sum_range_succ, Finset.sum_range_zero, Nat.zero_add]
  rw [ht c (b * 16 + c + 0) (by omega), ht (c + 1) (b * 16 + c + 1) (by omega),
    ht (c + 2) (b * 16 + c + 2) (by omega), ht (c + 3) (b * 16 + c + 3) (by omega),
    ht (c + 4) (b * 16 + c + 4) (by omega), ht (c + 5) (b * 16 + c + 5) (by omega),
    ht (c + 6) (b * 16 + c + 6) (by omega)]

/-- Invariant of the inner block loop of row `y`.  Starting from a state
whose row store satisfies the between-rows invariant (`hrows1`/`hrows2`)
and whose pipe cursor is at the start of row `y`, after the initial read
plus `k` iterations of the block loop: the cursor has advanced by `1 + k`
reads; the interim buffer holds the tail of block `k-1` and block `k`
(zeros at row start); slots other than `(y % 7, block < k)` of the row
store are untouched; the updated slots hold the cumulative sums through row
`y`; and the destination has additionally received row `y - 3`, columns
`[0, k*16)` (only when `y ≥ KERNEL_HEIGHT`). -/
theorem destUpdate_eq (dest : Nat → Nat → Option Nat) (y b : Nat) (ksum : Nat → Nat)
    (r x : Nat) :
    destUpdate dest y b ksum r x
      = if 3 ≤ y ∧ r = y - 3 ∧ b * 16 ≤ x ∧ x < b * 16 + 16
        then some (ksum (x - b * 16)) else dest r x := by
  unfold destUpdate
  by_cases h3 : 3 ≤ y
  · rw [if_pos h3]
    show (if r = y - 3 ∧ b * 16 ≤ x ∧ x < b * 16 + 16 then some (ksum (x - b * 16))
      else dest r x) = _
    by_cases hc : r = y - 3 ∧ b * 16 ≤ x ∧ x < b * 16 + 16
    · rw [if_pos hc, if_pos ⟨h3, hc⟩]
    · rw [if_neg hc, if_neg (fun hh => hc hh.2)]
  · rw [if_neg h3, if_neg (fun hh => h3 hh.1)]

theorem inner_char (stream : Nat → Nat → Nat) (prevIdx : Nat → Nat)
    (img : Nat → Nat → Nat) (FB y : Nat) (hFB : 2 ≤ FB)
    (hstream : ∀ m i, m < FB → i < 16 → stream (y * FB + m) i = img y (m * 16 + i))
    (hprev1 : 1 ≤ y → prevIdx y = (y - 1) % 7)
    (st0 : EngState) (hpos : st0.pos = y * FB)
    (hrows1 : ∀ j b i, j < y → y ≤ j + 7 → b + 1 < FB → i < 16 →
      st0.rows (j % 7) b i = cum img j (b * 16 + i) % U16)
    (hrows2 : ∀ s b i, (∀ j, j < y → y ≤ j + 7 → j % 7 ≠ s) → st0.rows s b i = 0) :
    ∀ k, k ≤ FB - 1 →
      (innerIter stream prevIdx y (rowInit stream st0) k).1.pos = y * FB + 1 + k
      ∧ (∀ j, j < 35 → (innerIter stream prevIdx y (rowInit stream st0) k).2 j
          = if j < 19 then (if j < 3 ∧ k = 0 then 0 else img y (k * 16 + j - 3))
            else (if k = 0 then 0 else img y (k * 16 + j - 19)))
      ∧ (∀ s b i, ¬(s = y % 7 ∧ b < k) →
          (innerIter stream prevIdx y (rowInit stream st0) k).1.rows s b i
            = st0.rows s b i)
      ∧ (∀ b i, b < k → i < 16 →
          (innerIter stream prevIdx y (rowInit stream st0) k).1.rows (y % 7) b i
            = cum img y (b * 16 + i) % U16)
      ∧ (∀ r x, (innerIter stream prevIdx y (rowInit stream st0) k).1.dest r x
          = if 3 ≤ y ∧ r = y - 3 ∧ x < k * 16
            then some (windowSumLC img (y - 3) x % U16) else st0.dest r x) := by
  intro k
  induction k with
  | zero =>
    intro _
    refine ⟨?_, ?_, ?_, ?_, ?_⟩
    · show st0.pos + 1 = y * FB + 1 + 0
      omega
    · intro j hj
      show (if 3 ≤ j ∧ j < 19 then stream st0.pos (j - 3) else 0) = _
      by_cases h19 : 3 ≤ j ∧ j < 19
      · rw [if_pos h19, if_pos h19.2,
          if_neg (show ¬(j < 3 ∧ 0 = 0) from fun hh => by omega), hpos]
        have h0 : y * FB = y * FB + 0 := by omega
        rw [h0, hstream 0 (j - 3) (by omega) (by omega)]
        congr 1
        omega
      · rw [if_neg h19]
        by_cases hj19 : j < 19
        · rw [if_pos hj19, if_pos (show j < 3 ∧ 0 = 0 from ⟨by omega, rfl⟩)]
        · rw [if_neg hj19, if_pos (show (0 : Nat) = 0 from rfl)]
    · intro s b i _
      rfl
    · intro b i hb _
      exact absurd hb (Nat.not_lt_zero b)
    · intro r x
      show st0.dest r x = _
      rw [if_neg (show ¬(3 ≤ y ∧ r = y - 3 ∧ x < 0 * 16) from fun hh => by omega)]
  | succ k ih =>
    intro hk1
    have hk : k ≤ FB - 1 := by omega
    obtain ⟨ihpos, ihbuf, ihold, ihnew, ihdest⟩ := ih hk
    set p := innerIter stream prevIdx y (rowInit stream st0) k with hp
    -- the buffer right after the pipe read of block k+1
    have hbuf1 : ∀ j, j < 35 → bufRead stream p.1.pos p.2 j
        = if j < 3 ∧ k = 0 then 0 else img y (k * 16 + j - 3) := by
      intro j hj
      show (if 19 ≤ j ∧ j < 35 then stream p.1.pos (j - 19) else p.2 j) = _
      by_cases h19 : 19 ≤ j ∧ j < 35
      · rw [if_pos h19, ihpos]
        have h0 : y * FB + 1 + k = y * FB + (1 + k) := by omega
        rw [h0, hstream (1 + k) (j - 19) (by omega) (by omega),
          if_neg (show ¬(j < 3 ∧ k = 0) from fun hh => by omega)]
        congr 1
        omega
      · rw [if_neg h19, ihbuf j hj, if_pos (show j < 19 from by omega)]
    -- the new cumulative row: sum + prev_row = cum through row y
    have hnew : ∀ i, i < 16 →
        newRowF (bufRead stream p.1.pos p.2) (p.1.rows (prevIdx y) k) i
          = cum img y (k * 16 + i) % U16 := by
      intro i hi
      show u16add (hsum (bufRead stream p.1.pos p.2) i) (p.1.rows (prevIdx y) k i) = _
      rw [hsum_colSum img y k i _ hbuf1 hi]
      have hpk : p.1.rows (prevIdx y) k i = st0.rows (prevIdx y) k i :=
        ihold (prevIdx y) k i (fun hh => by omega)
      rcases Nat.eq_zero_or_pos y with hy0 | hy1
      · subst hy0
        rw [hpk, hrows2 (prevIdx 0) k i
          (fun j hj _ => absurd hj (Nat.not_lt_zero j)), u16add_zero, cum_zero]
      · rw [hpk, hprev1 hy1,
          hrows1 (y - 1) k i (by omega) (by omega) (by omega) hi, u16add_mod,
          Nat.add_comm (colSum img y (k * 16 + i)) (cum img (y - 1) (k * 16 + i)),
          ← cum_succ img y (k * 16 + i) hy1]
    -- the oldest entry: the cumulative sum recorded 7 rows earlier (or 0)
    have holdest : ∀ i, i < 16 → p.1.rows (y % 7) k i
        = (if 7 ≤ y then cum img (y - 7) (k * 16 + i) else 0) % U16 := by
      intro i hi
      rw [ihold (y % 7) k i (fun hh => by omega)]
      rcases Nat.lt_or_ge y 7 with hy7 | hy7
      · rw [if_neg (show ¬ 7 ≤ y from by omega), Nat.zero_mod]
        exact hrows2 (y % 7) k i (fun j hj1 hj2 => by omega)
      · rw [if_pos hy7]
        have h77 : y % 7 = (y - 7) % 7 := by omega
        rw [h77]
        exact hrows1 (y - 7) k i (by omega) (by omega) (by omega) hi
    -- the emitted kernel sum: the clamped 7x7 window sum mod 2^16
    have hksum : ∀ i, i < 16 →
        u16sub (newRowF (bufRead stream p.1.pos p.2) (p.1.rows (prevIdx y) k) i)
            (p.1.rows (y % 7) k i)
          = (∑ t ∈ Finset.Icc (y - 6) y, colSum img t (k * 16 + i)) % U16 := by
      intro i hi
      rw [hnew i hi, holdest i hi, cum_window img y (k * 16 + i)]
      exact u16sub_eq _ _
    refine ⟨?_, ?_, ?_, ?_, ?_⟩
    · show p.1.pos + 1 = y * FB + 1 + (k + 1)
      rw [ihpos]
      omega
    · intro j hj
      show bufShift (bufRead stream p.1.pos p.2) j = _
      show (if j < 19 then bufRead stream p.1.pos p.2 (16 + j)
        else bufRead stream p.1.pos p.2 j) = _
      by_cases hj19 : j < 19
      · rw [if_pos hj19, hbuf1 (16 + j) (by omega),
          if_neg (show ¬(16 + j < 3 ∧ k = 0) from fun hh => by omega),
          if_pos hj19,
          if_neg (show ¬(j < 3 ∧ k + 1 = 0) from fun hh => by omega)]
        congr 1
        omega
      · rw [if_neg hj19, hbuf1 j hj,
          if_neg (show ¬(j < 3 ∧ k = 0) from fun hh => by omega),
          if_neg hj19, if_neg (show ¬(k + 1 = 0) from by omega)]
        congr 1
        omega
    · intro s b i hsb
      show (if s = y % 7 ∧ b = k
        then newRowF (bufRead stream p.1.pos p.2) (p.1.rows (prevIdx y) k) i
        else p.1.rows s b i) = _
      rw [if_neg (show ¬(s = y % 7 ∧ b = k) from fun hh => hsb ⟨hh.1, by omega⟩)]
      exact ihold s b i (fun hh => hsb ⟨hh.1, by omega⟩)
    · intro b i hb hi
      show (if y % 7 = y % 7 ∧ b = k
        then newRowF (bufRead stream p.1.pos p.2) (p.1.rows (prevIdx y) k) i
        else p.1.rows (y % 7) b i) = _
      by_cases hbk : b = k
      · rw [if_pos ⟨rfl, hbk⟩, hbk]
        exact hnew i hi
      · rw [if_neg (fun hh => hbk hh.2)]
        exact ihnew b i (by omega) hi
    · intro r x
      show destUpdate p.1.dest y k
        (fun i =>
          u16sub (newRowF (bufRead stream p.1.pos p.2) (p.1.rows (prevIdx y) k) i)
            (p.1.rows (y % 7) k i)) r x = _
      rw [destUpdate_eq]
      by_cases hcond : 3 ≤ y ∧ r = y - 3 ∧ k * 16 ≤ x ∧ x < k * 16 + 16
      · rw [if_pos hcond]
        show some (u16sub
            (newRowF (bufRead stream p.1.pos p.2) (p.1.rows (prevIdx y) k) (x - k * 16))
            (p.1.rows (y % 7) k (x - k * 16))) = _
        rw [hksum (x - k * 16) (by omega)]
        have hxx : k * 16 + (x - k * 16) = x := by omega
        rw [hxx]
        have hw : (∑ t ∈ Finset.Icc (y - 6) y, colSum img t x)
            = windowSumLC img (y - 3) x := by
          unfold windowSumLC
          have h1 : y - 3 - 3 = y - 6 := by omega
          have h2 : y - 3 + 3 = y := by omega
          rw [h1, h2]
        rw [hw, if_pos ⟨hcond.1, hcond.2.1, show x < (k + 1) * 16 from by omega⟩]
      · rw [if_neg hcond, ihdest r x]
        by_cases hA : 3 ≤ y ∧ r = y - 3 ∧ x < k * 16
        · rw [if_pos hA, if_pos ⟨hA.1, hA.2.1, show x < (k + 1) * 16 from by omega⟩]
        · rw [if_neg hA,
            if_neg (show ¬(3 ≤ y ∧ r = y - 3 ∧ x < (k + 1) * 16) from
              fun hh => by omega)]

/-- Full characterisation of the engine after processing rows `0 .. y-1`
(for any previous-row-index function agreeing with `(y - 1) % 7` on rows
`1 ≤ y < Y`): the pipe cursor counts `FULL_BLOCKS` reads per row, the ring
row store holds the cumulative sums of the last seven processed rows on the
processed blocks (`block + 1 < FULL_BLOCKS`) and zeros elsewhere, and a
destination entry `(r, x)` is written if and only if `r + 3 < y` and
`x < (FULL_BLOCKS - 1) * 16`, in which case it holds the clamped 7x7
window sum reduced modulo 2^16. -/
theorem engine_char (stream : Nat → Nat → Nat) (prevIdx : Nat → Nat)
    (img : Nat → Nat → Nat) (FB : Nat) (hFB : 2 ≤ FB)
    (hstream : ∀ y m i, m < FB → i < 16 → stream (y * FB + m) i = img y (m * 16 + i))
    (Y : Nat) (hprev : ∀ y, y < Y → 1 ≤ y → prevIdx y = (y - 1) % 7) :
    ∀ y, y ≤ Y →
      (engineRows stream prevIdx FB y).pos = y * FB
      ∧ (∀ j b i, j < y → y ≤ j + 7 → b + 1 < FB → i < 16 →
          (engineRows stream prevIdx FB y).rows (j % 7) b i
            = cum img j (b * 16 + i) % U16)
      ∧ (∀ s b i, (∀ j, j < y → y ≤ j + 7 → j % 7 ≠ s) →
          (engineRows stream prevIdx FB y).rows s b i = 0)
      ∧ (∀ r x, (engineRows stream prevIdx FB y).dest r x
          = if r + 3 < y ∧ x < (FB - 1) * 16
            then some (windowSumLC img r x % U16) else none) := by
  intro y
  induction y with
  | zero =>
    intro _
    refine ⟨?_, ?_, ?_, ?_⟩
    · show 0 = 0 * FB
      omega
    · intro j b i hj _ _ _
      exact absurd hj (Nat.not_lt_zero j)
    · intro s b i _
      rfl
    · intro r x
      show none = _
      rw [if_neg (show ¬(r + 3 < 0 ∧ x < (FB - 1) * 16) from fun hh => by omega)]
  | succ y ih =>
    intro hY1
    have hY : y ≤ Y := by omega
    obtain ⟨ih1, ih2, ih3, ih4⟩ := ih hY
    obtain ⟨c1, c2, c3, c4, c5⟩ :=
      inner_char stream prevIdx img FB y hFB (hstream y)
        (fun h1 => hprev y (by omega) h1) (engineRows stream prevIdx FB y) ih1 ih2 ih3
        (FB - 1) (Nat.le_refl _)
    have estep : engineRows stream prevIdx FB (y + 1)
        = (innerIter stream prevIdx y
            (rowInit stream (engineRows stream prevIdx FB y)) (FB - 1)).1 := rfl
    refine ⟨?_, ?_, ?_, ?_⟩
    · rw [estep, c1, Nat.succ_mul]
      omega
    · intro j b i hj hj7 hb hi
      rw [estep]
      by_cases hjy : j = y
      · subst hjy
        exact c4 b i (by omega) hi
      · have hne : j % 7 ≠ y % 7 := by omega
        rw [c3 (j % 7) b i (fun hh => hne hh.1)]
        exact ih2 j b i (by omega) (by omega) hb hi
    · intro s b i hno
      rw [estep]
      have hys : y % 7 ≠ s := hno y (by omega) (by omega)
      rw [c3 s b i (fun hh => hys (by omega))]
      refine ih3 s b i (fun j hj hy2 => ?_)
      by_cases hc : y + 1 ≤ j + 7
      · exact hno j (by omega) hc
      · omega
    · intro r x
      rw [estep, c5 r x]
      by_cases hB : 3 ≤ y ∧ r = y - 3 ∧ x < (FB - 1) * 16
      · rw [if_pos ⟨hB.1, hB.2.1, hB.2.2⟩,
          if_pos (show r + 3 < y + 1 ∧ x < (FB - 1) * 16 from ⟨by omega, hB.2.2⟩),
          hB.2.1]
      · rw [if_neg (show ¬(3 ≤ y ∧ r = y - 3 ∧ x < (FB - 1) * 16) from hB),
          ih4 r x]
        by_cases hC : r + 3 < y ∧ x < (FB - 1) * 16
        · rw [if_pos hC,
            if_pos (show r + 3 < y + 1 ∧ x < (FB - 1) * 16 from ⟨by omega, hC.2⟩)]
        · rw [if_neg hC,
            if_neg (show ¬(r + 3 < y + 1 ∧ x < (FB - 1) * 16) from fun hh => by omega)]

theorem producerStream_spec (img : Nat → Nat → Nat) (fast : Nat)
    (hFB : 2 ≤ FULL_BLOCKS fast) :
    ∀ y m i, m < FULL_BLOCKS fast → i < 16 →
      producerStream img fast (y * FULL_BLOCKS fast + m) i = img y (m * 16 + i) := by
  intro y m i hm hi
  unfold producerStream
  rw [if_pos hi]
  have hdiv : (y * FULL_BLOCKS fast + m) / FULL_BLOCKS fast = y := by
    rw [Nat.mul_comm, Nat.mul_add_div (by omega), Nat.div_eq_of_lt hm,
      Nat.add_zero]
  have hmod : (y * FULL_BLOCKS fast + m) % FULL_BLOCKS fast = m := by
    rw [Nat.mul_comm, Nat.mul_add_mod]
    exact Nat.mod_eq_of_lt hm
  rw [hdiv, hmod]

/-- For `1 ≤ y < 2^64` the `size_t` computation `(y - 1) % 7` of plumbing.cc
agrees with the mathematical `(y - 1) % 7`. -/
theorem prev_plumbing_spec : ∀ y, y < 2 ^ 64 → 1 ≤ y → prev_plumbing y = (y - 1) % 7 := by
  intro y h64 h1
  unfold prev_plumbing
  have h : (y + (2 ^ 64 - 1)) % 2 ^ 64 = y - 1 := by
    have he : y + (2 ^ 64 - 1) = 2 ^ 64 + (y - 1) := by omega
    rw [he, Nat.add_mod_left]
    exact Nat.mod_eq_of_lt (by omega)
  rw [h]

/-- For `1 ≤ y` the kernel.cc form `(y + 7 - 1) % 7` agrees with `(y - 1) % 7`. -/
theorem prev_kernel_spec : ∀ y, 1 ≤ y → prev_kernel y = (y - 1) % 7 := by
  intro y h1
  unfold prev_kernel
  omega

/-- Destination characterisation of the plumbing.cc engine run: entry
`(r, x)` is written iff `r + 3 < slow` and `x < (FULL_BLOCKS - 1) * 16`,
and then holds the clamped window sum mod 2^16. -/
theorem engineP_dest (img : Nat → Nat → Nat) (slow fast : Nat) (h64 : slow ≤ 2 ^ 64)
    (hFB : 2 ≤ FULL_BLOCKS fast) :
    ∀ r x, (engineP img slow fast).dest r x
      = if r + 3 < slow ∧ x < (FULL_BLOCKS fast - 1) * 16
        then some (windowSum img r x % U16) else none := by
  intro r x
  have h := (engine_char (producerStream img fast) prev_plumbing img (FULL_BLOCKS fast)
      hFB (producerStream_spec img fast hFB) slow
      (fun y hy h1 => prev_plumbing_spec y (by omega) h1) slow (Nat.le_refl slow)).2.2.2 r x
  unfold engineP
  rw [h, windowSumLC_eq]

theorem engineP_pos (img : Nat → Nat → Nat) (slow fast : Nat) (h64 : slow ≤ 2 ^ 64)
    (hFB : 2 ≤ FULL_BLOCKS fast) :
    (engineP img slow fast).pos = slow * FULL_BLOCKS fast := by
  exact (engine_char (producerStream img fast) prev_plumbing img (FULL_BLOCKS fast)
    hFB (producerStream_spec img fast hFB) slow
    (fun y hy h1 => prev_plumbing_spec y (by omega) h1) slow (Nat.le_refl slow)).1

/-!
## Concrete test images
-/

/-- A 7x32 test image: pixels `(3,5)` and `(3,6)` hold 40000, the window sum
at output pixel `(3,5)` is 80000 ≥ 2^16, so the `uint16_t` pipeline wraps. -/
def imgWrap : Nat → Nat → Nat := fun y x => if y = 3 ∧ (x = 5 ∨ x = 6) then 40000 else 0

/-- The all-ones image. -/
def imgOnes : Nat → Nat → Nat := fun _ _ => 1

/-- C1 (counterexample to the claim as stated): on the image `imgWrap`
(`slow = 7`, `fast = 32`) the output pixel `(3,5)` satisfies every support
condition of the claim — output row in `[KERNEL_HEIGHT, slow-KERNEL_HEIGHT)`
and all 7 horizontal neighbours inside processed blocks — yet the engine
writes `80000 mod 2^16 = 14464`, not the unclamped window sum `80000`. -/
theorem c1_counterexample :
    3 ≤ (3 : Nat) ∧ 3 + 3 < 7 ∧ 3 ≤ (5 : Nat)
    ∧ 5 + 3 < (FULL_BLOCKS 32 - 1) * 16
    ∧ (engineP imgWrap 7 32).dest 3 5 = some 14464
    ∧ windowSum imgWrap 3 5 = 80000
    ∧ (engineP imgWrap 7 32).dest 3 5 ≠ some (windowSum imgWrap 3 5) :=
  ⟨by decide, by decide, by decide, by decide, by decide, by decide, by decide⟩

/-- C1 (amended): for every pixel whose output row lies in
`[KERNEL_HEIGHT, slow - KERNEL_HEIGHT)` and whose column has all
`2*KERNEL_WIDTH+1` horizontal neighbours inside processed blocks, the value
the streaming engine writes equals the unclamped 7x7 window sum of the
input image centred on that pixel, reduced modulo 2^16 (the engine's
`uint16_t` arithmetic).  For `r, x ≥ 3` the clamping in `windowSum` is
inactive, so `windowSum img r x` is the plain unclamped window sum. -/
theorem c1_engine_interior_window_sum_mod (img : Nat → Nat → Nat)
    (slow fast r x : Nat) (h64 : slow ≤ 2 ^ 64) (hFB : 2 ≤ FULL_BLOCKS fast)
    (hr3 : 3 ≤ r) (hrs : r + 3 < slow) (hx3 : 3 ≤ x)
    (hxb : x + 3 < (FULL_BLOCKS fast - 1) * 16) :
    (engineP img slow fast).dest r x = some (windowSum img r x % U16) := by
  rw [engineP_dest img slow fast h64 hFB r x, if_pos ⟨hrs, by omega⟩]

/-- C1 witness: the amended theorem applied to `imgWrap` at `(3,5)`. -/
theorem c1_witness :
    7 ≤ 2 ^ 64 ∧ 2 ≤ FULL_BLOCKS 32 ∧ 3 ≤ (3 : Nat) ∧ 3 + 3 < 7 ∧ 3 ≤ (5 : Nat)
    ∧ 5 + 3 < (FULL_BLOCKS 32 - 1) * 16
    ∧ (engineP imgWrap 7 32).dest 3 5 = some (windowSum imgWrap 3 5 % U16) :=
  ⟨by decide, by decide, by decide, by decide, by decide, by decide,
   c1_engine_interior_window_sum_mod imgWrap 7 32 3 5 (by decide) (by decide)
     (by decide) (by decide) (by decide) (by decide)⟩

/-- C4: the two previous-row-index forms — `(y - 1) % FULL_KERNEL_HEIGHT`
in unsigned (`size_t`) arithmetic (plumbing.cc line 288, `engineP`) and
`(y + FULL_KERNEL_HEIGHT - 1) % FULL_KERNEL_HEIGHT` (kernel.cc lines
159-160, `run_module`) — yield engines producing identical destination
arrays, given the zero-initialised row store.  (At `y = 0` the two index
forms differ — 1 versus 6 — but both read a still-zero slot.) -/
theorem c4_prev_row_forms_equivalent (img : Nat → Nat → Nat) (mask : Nat → Nat)
    (slow fast : Nat) (h64 : slow ≤ 2 ^ 64) (hFB : 2 ≤ FULL_BLOCKS fast) :
    (engineP img slow fast).dest
      = (run_module mask (producerStream img fast) (FULL_BLOCKS fast) slow).dest := by
  funext r x
  have h1 := (engine_char (producerStream img fast) prev_plumbing img (FULL_BLOCKS fast)
    hFB (producerStream_spec img fast hFB) slow
    (fun y hy hy1 => prev_plumbing_spec y (by omega) hy1) slow
    (Nat.le_refl slow)).2.2.2 r x
  have h2 := (engine_char (producerStream img fast) prev_kernel img (FULL_BLOCKS fast)
    hFB (producerStream_spec img fast hFB) slow
    (fun y hy hy1 => prev_kernel_spec y hy1) slow (Nat.le_refl slow)).2.2.2 r x
  unfold engineP at h1 ⊢
  unfold run_module
  rw [h1, h2]

/-- C4 witness: the equivalence applied to the all-ones 8x32 image. -/
theorem c4_witness :
    8 ≤ 2 ^ 64 ∧ 2 ≤ FULL_BLOCKS 32
    ∧ (engineP imgOnes 8 32).dest
      = (run_module (fun _ => 0) (producerStream imgOnes 32) (FULL_BLOCKS 32) 8).dest :=
  ⟨by decide, by decide,
   c4_prev_row_forms_equivalent imgOnes (fun _ => 0) 8 32 (by decide) (by decide)⟩

/-- C5: the engine emits no output for input rows `y < KERNEL_HEIGHT`, and a
destination row `r` receives a write if and only if `r = y - KERNEL_HEIGHT`
for some processed input row `KERNEL_HEIGHT ≤ y < slow`; consequently the
final `KERNEL_HEIGHT` output rows (`r ≥ slow - KERNEL_HEIGHT`) are never
written. -/
theorem c5_edge_truncation (img : Nat → Nat → Nat) (slow fast : Nat)
    (h64 : slow ≤ 2 ^ 64) (hFB : 2 ≤ FULL_BLOCKS fast) :
    (∀ r, (∃ x, ((engineP img slow fast).dest r x).isSome)
        ↔ ∃ y, 3 ≤ y ∧ y < slow ∧ r = y - 3)
    ∧ (∀ r x, slow - 3 ≤ r → (engineP img slow fast).dest r x = none) := by
  constructor
  · intro r
    constructor
    · rintro ⟨x, hx⟩
      rw [engineP_dest img slow fast h64 hFB r x] at hx
      by_cases hc : r + 3 < slow ∧ x < (FULL_BLOCKS fast - 1) * 16
      · exact ⟨r + 3, by omega, hc.1, by omega⟩
      · rw [if_neg hc] at hx
        exact absurd hx (by simp)
    · rintro ⟨y, hy3, hys, rfl⟩
      refine ⟨0, ?_⟩
      rw [engineP_dest img slow fast h64 hFB (y - 3) 0,
        if_pos ⟨by omega, by omega⟩]
      rfl
  · intro r x hr
    rw [engineP_dest img slow fast h64 hFB r x,
      if_neg (show ¬(r + 3 < slow ∧ x < (FULL_BLOCKS fast - 1) * 16) from
        fun hh => by omega)]

/-- C5 witness: on an 8-row image, output row `5 = slow - 3` is unwritten. -/
theorem c5_witness :
    8 - 3 ≤ (5 : Nat) ∧ (engineP imgOnes 8 32).dest 5 0 = none :=
  ⟨by decide,
   (c5_edge_truncation imgOnes 8 32 (by decide) (by decide)).2 5 0 (by decide)⟩

/-- C8: every arithmetic step of the engine is `uint16_t` arithmetic, so
every emitted value equals the true (edge-clamped) window sum of the input
image reduced modulo 2^16 and lies below 2^16; window sums of 65536 or more
silently wrap. -/
theorem c8_u16_wraparound (img : Nat → Nat → Nat) (slow fast : Nat)
    (h64 : slow ≤ 2 ^ 64) (hFB : 2 ≤ FULL_BLOCKS fast) :
    ∀ r x v, (engineP img slow fast).dest r x = some v →
      v = windowSum img r x % U16 ∧ v < U16 := by
  intro r x v hv
  rw [engineP_dest img slow fast h64 hFB r x] at hv
  by_cases hc : r + 3 < slow ∧ x < (FULL_BLOCKS fast - 1) * 16
  · rw [if_pos hc] at hv
    have hvv := Option.some.inj hv
    refine ⟨hvv.symm, ?_⟩
    rw [← hvv]
    exact Nat.mod_lt _ (by unfold U16; omega)
  · rw [if_neg hc] at hv
    exact absurd hv (by simp)

/-- C8 witness: the theorem applied to the wrapping image at `(3,5)`. -/
theorem c8_witness :
    (engineP imgWrap 7 32).dest 3 5 = some 14464
    ∧ 14464 = windowSum imgWrap 3 5 % U16 ∧ 14464 < U16 :=
  ⟨by decide,
   c8_u16_wraparound imgWrap 7 32 (by decide) (by decide) 3 5 14464 (by decide)⟩

/-- C9: `run_module` receives the uploaded mask pointer but never reads it,
so two runs on the same pipe input with arbitrary different masks produce
identical engine states and, in particular, identical destination arrays. -/
theorem c9_mask_independence (mask1 mask2 : Nat → Nat) (stream : Nat → Nat → Nat)
    (fullBlocks slow : Nat) :
    run_module mask1 stream fullBlocks slow = run_module mask2 stream fullBlocks slow
    ∧ (run_module mask1 stream fullBlocks slow).dest
        = (run_module mask2 stream fullBlocks slow).dest :=
  ⟨rfl, rfl⟩

/-- C10: the engine consumes exactly `FULL_BLOCKS` blocks per row (one
initial read plus `FULL_BLOCKS - 1` loop reads, matching the producer's
per-row emission), and the output columns of the last full block,
`[(FULL_BLOCKS-1)*16, FULL_BLOCKS*16)`, are never written. -/
theorem c10_last_block_and_consumption (img : Nat → Nat → Nat) (slow fast : Nat)
    (h64 : slow ≤ 2 ^ 64) (hFB : 2 ≤ FULL_BLOCKS fast) :
    (engineP img slow fast).pos = slow * FULL_BLOCKS fast
    ∧ (∀ r x, (FULL_BLOCKS fast - 1) * 16 ≤ x →
        (engineP img slow fast).dest r x = none)
    ∧ (∀ r x v, (engineP img slow fast).dest r x = some v →
        x < (FULL_BLOCKS fast - 1) * 16) := by
  refine ⟨engineP_pos img slow fast h64 hFB, ?_, ?_⟩
  · intro r x hx
    rw [engineP_dest img slow fast h64 hFB r x,
      if_neg (show ¬(r + 3 < slow ∧ x < (FULL_BLOCKS fast - 1) * 16) from
        fun hh => by omega)]
  · intro r x v hv
    rw [engineP_dest img slow fast h64 hFB r x] at hv
    by_cases hc : r + 3 < slow ∧ x < (FULL_BLOCKS fast - 1) * 16
    · exact hc.2
    · rw [if_neg hc] at hv
      exact absurd hv (by simp)

/-- C10 witness: the consumption count on the all-ones 8x32 image. -/
theorem c10_witness : (engineP imgOnes 8 32).pos = 8 * FULL_BLOCKS 32 :=
  (c10_last_block_and_consumption imgOnes 8 32 (by decide) (by decide)).1

/-!
## The producer's emission order (plumbing.cc lines 222-237)
-/

/-- The block of 16 pixels at row `y`, block index `b`: the producer
reinterprets `image_data + y * fast` as an array of `PipedPixelsArray` and
emits element `b`, i.e. pixels `y * fast + b * 16 .. y * fast + b * 16 + 15`. -/
def blk (img : Nat → Nat → Nat) (y b : Nat) : Nat → Nat :=
  fun i => if i < 16 then img y (b * 16 + i) else 0

/-- The complete, ordered sequence of blocks the producer writes to the
pipe: `for y in 0..slow-1: for block in 0..FULL_BLOCKS-1: write`. -/
def producerList (img : Nat → Nat → Nat) (slow fast : Nat) : List (Nat → Nat) :=
  (List.range slow).flatMap (fun y => (List.range (FULL_BLOCKS fast)).map (blk img y))

/-- The producer as a transformer of the memory it can reach: it returns
the source image unchanged together with its emissions (the kernel only
reads `image_data`; it has no other effect). -/
def producerRun (img : Nat → Nat → Nat) (slow fast : Nat) :
    (Nat → Nat → Nat) × List (Nat → Nat) :=
  (img, producerList img slow fast)

theorem bind_range_length {α : Type} (f : Nat → List α) (m : Nat)
    (hm : ∀ y, (f y).length = m) : ∀ n, ((List.range n).flatMap f).length = n * m := by
  intro n
  induction n with
  | zero => simp
  | succ n ihn =>
    rw [List.range_succ, List.flatMap_append, List.length_append, ihn, Nat.succ_mul]
    simp [hm n]

theorem bind_range_get {α : Type} (f : Nat → List α) (m : Nat)
    (hm : ∀ y, (f y).length = m) : ∀ n y b, y < n → b < m →
      ((List.range n).flatMap f)[y * m + b]? = (f y)[b]? := by
  intro n
  induction n with
  | zero =>
    intro y b hy _
    exact absurd hy (Nat.not_lt_zero y)
  | succ n ihn =>
    intro y b hy hb
    rw [List.range_succ, List.flatMap_append]
    by_cases hyn : y < n
    · rw [List.getElem?_append_left (show y * m + b < ((List.range n).flatMap f).length from by
        rw [bind_range_length f m hm n]
        have h1 : y * m + b < (y + 1) * m := by rw [Nat.succ_mul]; omega
        have h2 : (y + 1) * m ≤ n * m := Nat.mul_le_mul_right m (by omega)
        omega)]
      exact ihn y b hyn hb
    · have hyn' : y = n := by omega
      subst hyn'
      have hlen : ((List.range y).flatMap f).length = y * m := bind_range_length f m hm y
      rw [List.getElem?_append_right (by rw [hlen]; omega)]
      rw [hlen, List.flatMap_singleton]
      congr 1
      omega

/-- C6: the producer emits exactly `slow * FULL_BLOCKS` blocks in strict
row-major, left-to-right order; the `y * FULL_BLOCKS + b`-th emitted block
contains the pixels `y * fast + b * 16 .. y * fast + b * 16 + 15`; the
emission stream depends only on pixel columns `< FULL_BLOCKS * 16` (so the
trailing `fast mod BLOCK_SIZE` columns are never read); and the source
image is never mutated. -/
theorem c6_producer_stream (img : Nat → Nat → Nat) (slow fast : Nat) :
    (producerList img slow fast).length = slow * FULL_BLOCKS fast
    ∧ (∀ y b, y < slow → b < FULL_BLOCKS fast →
        (producerList img slow fast)[y * FULL_BLOCKS fast + b]? = some (blk img y b))
    ∧ (∀ y b i, i < 16 → blk img y b i = img y (b * 16 + i))
    ∧ (∀ img2 : Nat → Nat → Nat,
        (∀ yy xx, xx < FULL_BLOCKS fast * 16 → img yy xx = img2 yy xx) →
        producerList img slow fast = producerList img2 slow fast)
    ∧ (producerRun img slow fast).1 = img := by
  have hm : ∀ y, ((List.range (FULL_BLOCKS fast)).map (blk img y)).length
      = FULL_BLOCKS fast := fun y => by simp
  refine ⟨bind_range_length _ _ hm slow, ?_, ?_, ?_, rfl⟩
  · intro y b hy hb
    unfold producerList
    rw [bind_range_get _ _ hm slow y b hy hb, List.getElem?_map,
      List.getElem?_range hb]
    rfl
  · intro y b i hi
    unfold blk
    rw [if_pos hi]
  · intro img2 himg
    have hblk : ∀ y, (List.range (FULL_BLOCKS fast)).map (blk img y)
        = (List.range (FULL_BLOCKS fast)).map (blk img2 y) := by
      intro y
      refine List.map_congr_left (fun b hb => ?_)
      have hbF : b < FULL_BLOCKS fast := List.mem_range.mp hb
      funext i
      unfold blk
      by_cases hi : i < 16
      · rw [if_pos hi, if_pos hi]
        apply himg
        have h1 : b * 16 + i < (b + 1) * 16 := by rw [Nat.succ_mul]; omega
        have h2 : (b + 1) * 16 ≤ FULL_BLOCKS fast * 16 :=
          Nat.mul_le_mul_right 16 (by omega)
        omega
      · rw [if_neg hi, if_neg hi]
    unfold producerList
    exact congrArg _ (funext hblk)

/-- A concrete deterministic image used by witnesses. -/
def imgSeq : Nat → Nat → Nat := fun y x => y * 100 + x

/-- C6 witness: the order/content part applied at the second block of the
second row of a concrete 2x32 image. -/
theorem c6_witness :
    (1 : Nat) < 2 ∧ 1 < FULL_BLOCKS 32
    ∧ (producerList imgSeq 2 32)[1 * FULL_BLOCKS 32 + 1]? = some (blk imgSeq 1 1) :=
  ⟨by decide, by decide,
   (c6_producer_stream imgSeq 2 32).2.1 1 1 (by decide) (by decide)⟩

/-!
## Reference calculators (spec section 4.3)

The repository sources under src/ contain only the streaming engine; the
two reference calculators are specified but their code is not present, so
they are modelled from the spec below.
-/

/-- Modelled from the spec: `BruteForceWindowSum` (missing from src/) —
"for every pixel, sums over the window clamped to image bounds (partial,
smaller windows at edges — no zero-padding)", window half-sizes `kh`/`kw`. -/
def bruteForceWindowSum (img : Nat → Nat → Nat) (slow fast kh kw y x : Nat) : Nat :=
  ∑ a ∈ Finset.Icc (y - kh) (min (y + kh) (slow - 1)),
    ∑ b ∈ Finset.Icc (x - kw) (min (x + kw) (fast - 1)), img a b

/-- Modelled from the spec: the "inclusive 2D prefix-sum table" built by
`SATWindowSum` (missing from src/): `T(y, x) = ∑_{a ≤ y, b ≤ x} img a b`. -/
def satTable (img : Nat → Nat → Nat) (y x : Nat) : Nat :=
  ∑ a ∈ Finset.range (y + 1), ∑ b ∈ Finset.range (x + 1), img a b

/-- Modelled from the spec: `SATWindowSum` (missing from src/) answers each
window query in O(1) "via four-corner inclusion-exclusion" on the inclusive
table, "using the same clamped-edge policy"; corner terms whose index would
be negative are dropped. -/
def satWindowSum (img : Nat → Nat → Nat) (slow fast kh kw y x : Nat) : Int :=
  (satTable img (min (y + kh) (slow - 1)) (min (x + kw) (fast - 1)) : Int)
    - (if y - kh = 0 then 0
       else (satTable img (y - kh - 1) (min (x + kw) (fast - 1)) : Int))
    - (if x - kw = 0 then 0
       else (satTable img (min (y + kh) (slow - 1)) (x - kw - 1) : Int))
    + (if y - kh = 0 ∨ x - kw = 0 then 0
       else (satTable img (y - kh - 1) (x - kw - 1) : Int))

/-- The exclusive 2D prefix sum `P(r, c) = ∑_{a < r, b < c} img a b`. -/
def prefixP (img : Nat → Nat → Nat) (rr cc : Nat) : Nat :=
  ∑ a ∈ Finset.range rr, ∑ b ∈ Finset.range cc, img a b

theorem satTable_eq_P (img : Nat → Nat → Nat) (y x : Nat) :
    satTable img y x = prefixP img (y + 1) (x + 1) := rfl

theorem prefixP_zero_row (img : Nat → Nat → Nat) (c : Nat) : prefixP img 0 c = 0 := by
  unfold prefixP
  simp

theorem prefixP_zero_col (img : Nat → Nat → Nat) (r : Nat) : prefixP img r 0 = 0 := by
  unfold prefixP
  simp

theorem satTable_corner_row (img : Nat → Nat → Nat) (r0 c : Nat) :
    (if r0 = 0 then 0 else (satTable img (r0 - 1) c : Int))
      = (prefixP img r0 (c + 1) : Int) := by
  by_cases h : r0 = 0
  · subst h
    rw [if_pos rfl, prefixP_zero_row]
    rfl
  · rw [if_neg h, satTable_eq_P]
    have h1 : r0 - 1 + 1 = r0 := by omega
    rw [h1]

theorem satTable_corner_col (img : Nat → Nat → Nat) (r c0 : Nat) :
    (if c0 = 0 then 0 else (satTable img r (c0 - 1) : Int))
      = (prefixP img (r + 1) c0 : Int) := by
  by_cases h : c0 = 0
  · subst h
    rw [if_pos rfl, prefixP_zero_col]
    rfl
  · rw [if_neg h, satTable_eq_P]
    have h1 : c0 - 1 + 1 = c0 := by omega
    rw [h1]

theorem satTable_corner_both (img : Nat → Nat → Nat) (r0 c0 : Nat) :
    (if r0 = 0 ∨ c0 = 0 then 0 else (satTable img (r0 - 1) (c0 - 1) : Int))
      = (prefixP img r0 c0 : Int) := by
  by_cases h : r0 = 0 ∨ c0 = 0
  · rw [if_pos h]
    rcases h with h | h
    · subst h
      rw [prefixP_zero_row]
      rfl
    · subst h
      rw [prefixP_zero_col]
      rfl
  · rw [if_neg h, satTable_eq_P]
    have h1 : r0 - 1 + 1 = r0 := by omega
    have h2 : c0 - 1 + 1 = c0 := by omega
    rw [h1, h2]

theorem P_diff (img : Nat → Nat → Nat) (R0 R1 C : Nat) (h : R0 ≤ R1) :
    (prefixP img R1 C : Int) - prefixP img R0 C
      = ∑ a ∈ Finset.Ico R0 R1, ((∑ b ∈ Finset.range C, img a b : Nat) : Int) := by
  have hsplit : prefixP img R1 C
      = prefixP img R0 C + ∑ a ∈ Finset.Ico R0 R1, ∑ b ∈ Finset.range C, img a b := by
    unfold prefixP
    rw [Finset.range_eq_Ico]
    exact (Finset.sum_Ico_consecutive (fun a => ∑ b ∈ Finset.Ico 0 C, img a b)
      (Nat.zero_le R0) h).symm
  rw [hsplit]
  push_cast
  ring

/-- C2: for every image and every in-bounds pixel, the summed-area-table
window query returns exactly the brute-force clamped-edge window sum. -/
theorem c2_sat_eq_bruteforce (img : Nat → Nat → Nat) (slow fast kh kw y x : Nat)
    (hy : y < slow) (hx : x < fast) :
    satWindowSum img slow fast kh kw y x
      = (bruteForceWindowSum img slow fast kh kw y x : Int) := by
  unfold satWindowSum bruteForceWindowSum
  set r1 := min (y + kh) (slow - 1) with hr1def
  set c1 := min (x + kw) (fast - 1) with hc1def
  set r0 := y - kh with hr0def
  set c0 := x - kw with hc0def
  have hr01 : r0 ≤ r1 := by omega
  have hc01 : c0 ≤ c1 := by omega
  rw [satTable_corner_row img r0 c1, satTable_corner_col img r1 c0,
    satTable_corner_both img r0 c0, satTable_eq_P img r1 c1,
    ← Nat.Ico_succ_right, ← Nat.Ico_succ_right]
  have e1 := P_diff img r0 (r1 + 1) (c1 + 1) (by omega)
  have e2 := P_diff img r0 (r1 + 1) c0 (by omega)
  have e4 : ∀ a, ((∑ b ∈ Finset.range (c1 + 1), img a b : Nat) : Int)
      - ((∑ b ∈ Finset.range c0, img a b : Nat) : Int)
      = ∑ b ∈ Finset.Ico c0 (c1 + 1), (img a b : Int) := by
    intro a
    have hs : (∑ b ∈ Finset.Ico 0 (c1 + 1), img a b)
        = (∑ b ∈ Finset.Ico 0 c0, img a b) + ∑ b ∈ Finset.Ico c0 (c1 + 1), img a b :=
      (Finset.sum_Ico_consecutive (fun b => img a b)
        (Nat.zero_le c0) (by omega)).symm
    rw [Finset.range_eq_Ico, hs]
    push_cast
    ring
  calc (prefixP img (r1 + 1) (c1 + 1) : Int) - prefixP img r0 (c1 + 1)
        - prefixP img (r1 + 1) c0 + prefixP img r0 c0
      = ((prefixP img (r1 + 1) (c1 + 1) : Int) - prefixP img r0 (c1 + 1))
          - ((prefixP img (r1 + 1) c0 : Int) - prefixP img r0 c0) := by ring
    _ = ∑ a ∈ Finset.Ico r0 (r1 + 1),
          (((∑ b ∈ Finset.range (c1 + 1), img a b : Nat) : Int)
            - ((∑ b ∈ Finset.range c0, img a b : Nat) : Int)) := by
        rw [e1, e2, ← Finset.sum_sub_distrib]
    _ = ∑ a ∈ Finset.Ico r0 (r1 + 1), ∑ b ∈ Finset.Ico c0 (c1 + 1), (img a b : Int) :=
        Finset.sum_congr rfl (fun a _ => e4 a)
    _ = ((∑ a ∈ Finset.Ico r0 (r1 + 1), ∑ b ∈ Finset.Ico c0 (c1 + 1), img a b : Nat)
          : Int) := by
        push_cast
        ring

/-- C2 witness: SAT equals brute force on a concrete 4x5 image with an
asymmetric kernel, at an edge pixel where clamping is active. -/
theorem c2_witness :
    (0 : Nat) < 4 ∧ (4 : Nat) < 5
    ∧ satWindowSum imgSeq 4 5 1 2 0 4 = (bruteForceWindowSum imgSeq 4 5 1 2 0 4 : Int) :=
  ⟨by decide, by decide, c2_sat_eq_bruteforce imgSeq 4 5 1 2 0 4 (by decide) (by decide)⟩

/-!
## Module layout rearrangement (src/h5read/h5read.c)
-/

structure DetGeom where
  mod_slow : Nat
  mod_fast : Nat
  gap_slow : Nat
  gap_fast : Nat
  e16m_slow : Nat
  e16m_fast : Nat
  e4m_slow : Nat
  e4m_fast : Nat

/-- Modelled from the spec: the detector geometry fact table of the header
eiger2xe.h, which is not under src/ ("Detector geometry constants (module
size, gap size, supported totals) are external fact tables").  An Eiger2 XE
module is 512 x 1028 pixels with 38 x 12 gap pixels between modules; the
16M sensor is an 8x4 module grid (4362 x 4148 pixels total) and the 4M
sensor a 4x2 grid (2162 x 2068): `8*512 + 7*38 = 4362`,
`4*1028 + 3*12 = 4148`, `4*512 + 3*38 = 2162`, `2*1028 + 1*12 = 2068`. -/
def eiger2xe : DetGeom := ⟨512, 1028, 38, 12, 4362, 4148, 2162, 2068⟩

/-- `blit` (h5read.c lines 99-104): source offset of one module row,
`row0 + row * image.fast + _fast * (E2XE_MOD_FAST + E2XE_GAP_FAST)` where
`row0 = _slow * (E2XE_MOD_SLOW + E2XE_GAP_SLOW) * image.fast`. -/
def blit_offset (g : DetGeom) (image_fast ms mf row : Nat) : Nat :=
  ms * (g.mod_slow + g.gap_slow) * image_fast + row * image_fast
    + mf * (g.mod_fast + g.gap_fast)

/-- `blit` (h5read.c line 105): destination target
`(_slow * fast + _fast) * module_pixels + row * E2XE_MOD_FAST`. -/
def blit_target (g : DetGeom) (fast ms mf row : Nat) : Nat :=
  (ms * fast + mf) * (g.mod_slow * g.mod_fast) + row * g.mod_fast

/-- `blit` (h5read.c lines 82-88): module grid `(slow, fast) = (8, 4)` when
`image.slow == E2XE_16M_SLOW`, else `(4, 2)`. -/
def blit_grid (g : DetGeom) (image_slow : Nat) : Nat × Nat :=
  if image_slow = g.e16m_slow then (8, 4) else (4, 2)

/-- One `memcpy` of `len` contiguous elements from `src + offset` to
`dst + target` (h5read.c lines 106-108 and 287-289). -/
def copyRow {α : Type} (src dst : Nat → α) (offset target len : Nat) : Nat → α :=
  fun t => if target ≤ t ∧ t < target + len then src (offset + (t - target)) else dst t

/-- The triple rearrangement loop of `blit` (h5read.c lines 99-111),
copying `E2XE_MOD_FAST` pixels per (module-row, module-column, row) triple
into the freshly allocated module array `init`. -/
def blit_data {α : Type} (g : DetGeom) (slow fast image_fast : Nat)
    (init : Nat → α) (src : Nat → α) : Nat → α :=
  (List.range slow).foldl (fun d1 ms =>
    (List.range fast).foldl (fun d2 mf =>
      (List.range g.mod_slow).foldl (fun d3 row =>
        copyRow src d3 (blit_offset g image_fast ms mf row)
          (blit_target g fast ms mf row) g.mod_fast) d2) d1) init

/-- `read_mask` (h5read.c lines 283-285): source offset in the inline
module-mask blit — textually the same formula as in `blit`. -/
def read_mask_offset (g : DetGeom) (image_fast ms mf row : Nat) : Nat :=
  ms * (g.mod_slow + g.gap_slow) * image_fast + row * image_fast
    + mf * (g.mod_fast + g.gap_fast)

/-- `read_mask` (h5read.c line 286): destination target in the inline
module-mask blit — textually the same formula as in `blit`. -/
def read_mask_target (g : DetGeom) (fast ms mf row : Nat) : Nat :=
  (ms * fast + mf) * (g.mod_slow * g.mod_fast) + row * g.mod_fast

/-- `read_mask` (h5read.c lines 268-278): grid selection
`(slow, fast, image_fast)` — the 16M grid when `mask_size` equals the 16M
total pixel count, otherwise (with no further check) the 4M grid. -/
def read_mask_grid (g : DetGeom) (mask_size : Nat) : Nat × Nat × Nat :=
  if mask_size = g.e16m_slow * g.e16m_fast then (8, 4, g.e16m_fast)
  else (4, 2, g.e4m_fast)

/-- The triple rearrangement loop of `read_mask` (h5read.c lines 279-292). -/
def read_mask_blit {α : Type} (g : DetGeom) (slow fast image_fast : Nat)
    (init : Nat → α) (src : Nat → α) : Nat → α :=
  (List.range slow).foldl (fun d1 ms =>
    (List.range fast).foldl (fun d2 mf =>
      (List.range g.mod_slow).foldl (fun d3 row =>
        copyRow src d3 (read_mask_offset g image_fast ms mf row)
          (read_mask_target g fast ms mf row) g.mod_fast) d2) d1) init

/-- The 0/1 validity mask computed from the raw mask data (h5read.c lines
241-261): `mask[j] = 1` exactly when `raw_mask[j] == 0`. -/
def maskOf (raw : Nat → Nat) : Nat → Nat := fun j => if raw j = 0 then 1 else 0

/-- `read_mask` (h5read.c lines 186-301) modelled on its data flow,
returning `none` for the one fatal configuration check it performs — an
unsupported mask element width (`mask_dsize != 4 && != 8`, lines 206-214,
`exit(1)`) — and otherwise the derived validity mask together with the
blitted module mask.  The total length `mask_size` is never validated:
lines 268-278 pick the 16M grid iff `mask_size` equals the 16M total and
otherwise fall through to the 4M grid, and the blit proceeds
unconditionally.  (The C module-mask buffer is allocated uninitialised;
the model passes the all-zero initial array.) -/
def read_mask_model (g : DetGeom) (mask_dsize mask_size : Nat) (raw : Nat → Nat) :
    Option ((Nat → Nat) × (Nat → Nat)) :=
  if mask_dsize ≠ 4 ∧ mask_dsize ≠ 8 then none
  else some (maskOf raw,
    read_mask_blit g (read_mask_grid g mask_size).1 (read_mask_grid g mask_size).2.1
      (read_mask_grid g mask_size).2.2 (fun _ => 0) (maskOf raw))

/-- C3 (counterexample to the claim as stated): a flat mask of length 7
matches neither supported geometry, yet `read_mask` does not fail: with a
supported element width it proceeds and rearranges the data (the result is
`some …`, never a configuration error). -/
theorem c3_counterexample :
    (7 : Nat) ≠ eiger2xe.e16m_slow * eiger2xe.e16m_fast
    ∧ (7 : Nat) ≠ eiger2xe.e4m_slow * eiger2xe.e4m_fast
    ∧ (read_mask_model eiger2xe 4 7 (fun _ => 0)).isSome = true :=
  ⟨by decide, by decide, rfl⟩

/-- C3 (amended): a flat mask buffer whose total length matches neither
supported geometry is not rejected: `read_mask` silently treats it as the
4M geometry and rearranges the data; the only configuration error it can
raise is for an unsupported mask element width (not 4 or 8 bytes). -/
theorem c3_read_mask_no_length_error (msize : Nat) (raw : Nat → Nat)
    (h16 : msize ≠ eiger2xe.e16m_slow * eiger2xe.e16m_fast)
    (h4 : msize ≠ eiger2xe.e4m_slow * eiger2xe.e4m_fast) :
    read_mask_model eiger2xe 4 msize raw
      = some (maskOf raw,
          read_mask_blit eiger2xe 4 2 eiger2xe.e4m_fast (fun _ => 0) (maskOf raw))
    ∧ (∀ dsize, dsize ≠ 4 → dsize ≠ 8 →
        read_mask_model eiger2xe dsize msize raw = none) := by
  constructor
  · unfold read_mask_model
    rw [if_neg (show ¬((4 : Nat) ≠ 4 ∧ (4 : Nat) ≠ 8) from fun hh => hh.1 rfl)]
    have hg : read_mask_grid eiger2xe msize = (4, 2, eiger2xe.e4m_fast) := by
      unfold read_mask_grid
      rw [if_neg h16]
    rw [hg]
  · intro dsize hd4 hd8
    unfold read_mask_model
    rw [if_pos ⟨hd4, hd8⟩]

/-- C3 witness: the amended theorem applied to the unsupported length 7. -/
theorem c3_witness :
    (7 : Nat) ≠ eiger2xe.e16m_slow * eiger2xe.e16m_fast
    ∧ (7 : Nat) ≠ eiger2xe.e4m_slow * eiger2xe.e4m_fast
    ∧ read_mask_model eiger2xe 4 7 (fun _ => 0)
        = some (maskOf (fun _ => 0),
            read_mask_blit eiger2xe 4 2 eiger2xe.e4m_fast (fun _ => 0)
              (maskOf (fun _ => 0))) :=
  ⟨by decide, by decide,
   (c3_read_mask_no_length_error 7 (fun _ => 0) (by decide) (by decide)).1⟩

/-- C7: for equal geometry parameters the rearrangement applied to image
data (`blit`) and the one applied to the mask (`read_mask`) compute the
identical source offset and destination target for every (module-row,
module-column, row) triple, the full copy loops produce identical results
on any source array, and the grid dispatches agree whenever the 16M
conditions coincide. -/
theorem c7_blit_mappings_identical :
    ∀ (g : DetGeom) (image_fast fast ms mf row : Nat),
      blit_offset g image_fast ms mf row = read_mask_offset g image_fast ms mf row
      ∧ blit_target g fast ms mf row = read_mask_target g fast ms mf row
      ∧ (∀ (α : Type) (s f imf : Nat) (init src : Nat → α),
          blit_data g s f imf init src = read_mask_blit g s f imf init src)
      ∧ (∀ image_slow msize,
          (image_slow = g.e16m_slow ↔ msize = g.e16m_slow * g.e16m_fast) →
          blit_grid g image_slow
            = ((read_mask_grid g msize).1, (read_mask_grid g msize).2.1)) := by
  intro g image_fast fast ms mf row
  refine ⟨rfl, rfl, fun α s f imf init src => rfl, ?_⟩
  intro image_slow msize hiff
  unfold blit_grid read_mask_grid
  by_cases h : image_slow = g.e16m_slow
  · rw [if_pos h, if_pos (hiff.mp h)]
  · rw [if_neg h, if_neg (fun hm => h (hiff.mpr hm))]

/-- C7 witness: the grid-dispatch agreement at the 16M geometry. -/
theorem c7_witness :
    ((4362 : Nat) = eiger2xe.e16m_slow
      ↔ (4362 * 4148 : Nat) = eiger2xe.e16m_slow * eiger2xe.e16m_fast)
    ∧ blit_grid eiger2xe 4362
        = ((read_mask_grid eiger2xe (4362 * 4148)).1,
           (read_mask_grid eiger2xe (4362 * 4148)).2.1) :=
  ⟨by decide,
   (c7_blit_mappings_identical eiger2xe 4148 4 0 0 0).2.2.2 4362 (4362 * 4148)
     (by decide)⟩
